import Mathlib

/-!
Shallow embedding of the PMS admin role-assignment code:
the `AdminService` (Prisma-backed service) and the `AdminController`
endpoints `getProjectRoles` / `setProjectRoles`, together with
`assign`, `listAssignments`, `removeAssignment`, `createUser` and
`searchUsers`.  Storage (Prisma) is modelled as an explicit `Store`
value threaded through the operations; each `await`ed Prisma call is
one atomic step, and a thrown exception aborts the remaining steps of
a handler without rolling back the steps already executed (there is no
transaction in the source).
-/

namespace PMS

/-- Models JavaScript String.prototype.trim for the whitespace forms
occurring in this codebase (space, tab, newline, carriage return). -/
def isJsSpace (c : Char) : Bool :=
  c = ' ' || c = '\t' || c = '\n' || c = '\r'

/-- Embedding of s.trim(). -/
def jsTrim (s : String) : String :=
  String.mk (((s.data.dropWhile isJsSpace).reverse.dropWhile isJsSpace).reverse)

/-- Embedding of s.toLowerCase() (ASCII). -/
def jsToLower (s : String) : String :=
  String.mk (s.data.map Char.toLower)

/-- Embedding of s.toUpperCase() (ASCII). -/
def jsToUpper (s : String) : String :=
  String.mk (s.data.map Char.toUpper)

/-- A user row (Prisma model User), as read by the admin service. -/
structure User where
  userId : String
  code : String
  role : String
  name : String
  city : Option String := none
  email : Option String := none
  phone : Option String := none
  isSuperAdmin : Bool := false
  createdAt : Nat := 0
deriving DecidableEq, Repr

/-- A ProjectMember row (an Assignment): one user occupying one role on
one project.  ids are modelled as Nats (cuid strings in the source are
always non-empty, hence always truthy). -/
structure Assignment where
  id : Nat
  projectId : String
  userId : String
  role : String
  createdAt : Nat
deriving DecidableEq, Repr

/-- The persistent store: project ids, user rows, assignment rows, plus
an id counter and a clock supplying strictly increasing createdAt. -/
structure Store where
  projects : List String := []
  users : List User := []
  assignments : List Assignment := []
  nextId : Nat := 1
  now : Nat := 1
deriving DecidableEq, Repr

/-- The errors the admin module throws.  The source throws
BadRequestException with a message; Prisma delete on a missing id
throws a not-found error. -/
inductive AdminError where
  | badRequest (msg : String)
  | notFound
deriving DecidableEq, Repr

/-- The role catalog, verbatim from AdminController.ROLE_CATALOG. -/
def ROLE_CATALOG : List String :=
  [ "Admin"
  , "Customer"
  , "PMC"
  , "Architect"
  , "Designer"
  , "Contractor"
  , "Legal/Liasoning"
  , "Ava-PMT"
  , "Engineer (Contractor)"
  , "DC (Contractor)"
  , "DC (PMC)"
  , "Inspector (PMC)"
  , "HOD (PMC)"
  ]

/-- JS object / Map lookup on an association list (first match). -/
def jsGet {α : Type} (m : List (String × α)) (k : String) : Option α :=
  match m.find? (fun kv => kv.1 = k) with
  | some kv => some kv.2
  | none => none

/-- JS object property write / Map.set: update the entry in place when
the key is present (insertion order kept), else append it at the end. -/
def jsSet {α : Type} (m : List (String × α)) (k : String) (v : α) : List (String × α) :=
  if m.any (fun kv => kv.1 = k) then
    m.map (fun kv => if kv.1 = k then (k, v) else kv)
  else
    m ++ [(k, v)]

/-- JS truthiness of a string | null value: non-null and non-empty. -/
def jsTruthy : Option String → Bool
  | none => false
  | some s => !(s = "")

/-- Generic insertion, ordered by a Bool comparison le (a is placed
before the first element b with le a b). -/
def insertLe {α : Type} (le : α → α → Bool) (a : α) : List α → List α
  | [] => [a]
  | b :: l => if le a b then a :: b :: l else b :: insertLe le a l

/-- Insertion sort by le; models a Prisma orderBy. -/
def sortLe {α : Type} (le : α → α → Bool) : List α → List α
  | [] => []
  | a :: l => insertLe le a (sortLe le l)

/-- orderBy createdAt desc on assignments. -/
def createdDescA (a b : Assignment) : Bool := decide (b.createdAt ≤ a.createdAt)

/-- orderBy createdAt desc on users. -/
def createdDescU (a b : User) : Bool := decide (b.createdAt ≤ a.createdAt)

/-- orderBy name asc on users. -/
def nameAscU (a b : User) : Bool := decide (a.name ≤ b.name)

-- ---------------------------------------------------------------
-- AdminService (the live copy, src/unnamed/part_003 lines 16-235)
-- ---------------------------------------------------------------

/-- AdminService.normStr. -/
def normStr (v : Option String) : String := jsTrim (v.getD "")

/-- AdminService.normEmail: trim, null when blank, else lowercase. -/
def normEmail (v : Option String) : Option String :=
  let s := normStr v
  if s = "" then none else some (jsToLower s)

/-- AdminService.normPhone: trim, null when blank, strip non-digits,
null when no digit remains. -/
def normPhone (v : Option String) : Option String :=
  let s := normStr v
  if s = "" then none
  else
    let digits := s.data.filter Char.isDigit
    if digits = [] then none else some (String.mk digits)

structure AssignDto where
  projectId : String
  userId : String
  role : String
deriving DecidableEq, Repr

/-- Outcome of AdminService.assign: the store after the call (unchanged
when an exception was thrown, since the throw precedes the create), the
created row if any, and the thrown error if any. -/
structure AssignResult where
  store : Store
  created : Option Assignment
  error : Option AdminError
deriving DecidableEq, Repr

/-- AdminService.assign: trims the fields, throws on a blank field,
validates both foreign keys, then creates the ProjectMember row.  No
catalog-membership check is performed on the role. -/
def svcAssign (s : Store) (dto : AssignDto) : AssignResult :=
  let projectId := jsTrim dto.projectId
  let userId := jsTrim dto.userId
  let role := jsTrim dto.role
  if projectId = "" ∨ userId = "" ∨ role = "" then
    ⟨s, none, some (.badRequest "projectId, userId, role required")⟩
  else if ¬ (projectId ∈ s.projects) then
    ⟨s, none, some (.badRequest "Invalid projectId")⟩
  else if ¬ (s.users.any (fun u => u.userId = userId)) then
    ⟨s, none, some (.badRequest "Invalid userId")⟩
  else
    let a : Assignment := ⟨s.nextId, projectId, userId, role, s.now⟩
    ⟨{ s with assignments := s.assignments ++ [a]
             , nextId := s.nextId + 1
             , now := s.now + 1 }, some a, none⟩

/-- AdminService.listAssignments: throws when the trimmed projectId is
blank, else the project's rows ordered by createdAt descending. -/
def svcListAssignments (s : Store) (projectId : String) : Except AdminError (List Assignment) :=
  let pid := jsTrim projectId
  if pid = "" then .error (.badRequest "projectId required")
  else .ok (sortLe createdDescA (s.assignments.filter (fun a => a.projectId = pid)))

/-- AdminService.removeAssignment: Prisma delete by unique id; throws a
not-found error when the row is absent.  (The blank-id check of the
source cannot fire on Nat-modelled ids.) -/
def svcRemoveAssignment (s : Store) (id : Nat) : Store × Option AdminError :=
  if s.assignments.any (fun a => a.id = id) then
    ({ s with assignments := s.assignments.filter (fun a => ¬ a.id = id) }, none)
  else
    (s, some .notFound)

structure CreateUserDto where
  code : String
  role : String
  name : String
  city : Option String := none
  email : Option String := none
  phone : Option String := none
  isSuperAdmin : Bool := false
deriving DecidableEq, Repr

/-- Outcome of user creation: store after the call, created row, error. -/
structure CreateUserResult where
  store : Store
  created : Option User
  error : Option AdminError
deriving DecidableEq, Repr

/-- AdminService.createUser: normalizes the fields, requires code, role
and name, requires at least one of the normalized email / phone to be
non-null, runs the three uniqueness probes, then creates the row. -/
def svcCreateUser (s : Store) (dto : CreateUserDto) : CreateUserResult :=
  let code := jsToUpper (jsTrim dto.code)
  let role := jsTrim dto.role
  let name := jsTrim dto.name
  let city := normStr dto.city
  let email := normEmail dto.email
  let phone := normPhone dto.phone
  if code = "" ∨ role = "" ∨ name = "" then
    ⟨s, none, some (.badRequest "code, role and name are required")⟩
  else if email = none ∧ phone = none then
    ⟨s, none, some (.badRequest "Either email or phone is required")⟩
  else if s.users.any (fun u => u.code = code) then
    ⟨s, none, some (.badRequest ("User code \"" ++ code ++ "\" already exists"))⟩
  else if email.isSome ∧ s.users.any (fun u => u.email = email) then
    ⟨s, none, some (.badRequest ("Email \"" ++ email.getD "" ++ "\" already in use"))⟩
  else if phone.isSome ∧ s.users.any (fun u => u.phone = phone) then
    ⟨s, none, some (.badRequest ("Phone \"" ++ phone.getD "" ++ "\" already in use"))⟩
  else
    let u : User :=
      { userId := "u" ++ Nat.repr s.nextId
      , code := code
      , role := role
      , name := name
      , city := if city = "" then none else some city
      , email := email
      , phone := phone
      , isSuperAdmin := dto.isSuperAdmin
      , createdAt := s.now }
    ⟨{ s with users := s.users ++ [u], nextId := s.nextId + 1, now := s.now + 1 }, some u, none⟩

/-- POST /admin/users: the controller's raw truthiness pre-check on
code, role and name, then AdminService.createUser. -/
def createUser (s : Store) (dto : CreateUserDto) : CreateUserResult :=
  if dto.code = "" ∨ dto.role = "" ∨ dto.name = "" then
    ⟨s, none, some (.badRequest "code, role and name are required")⟩
  else svcCreateUser s dto

/-- needle is an initial segment of hay. -/
def leadsList (needle hay : List Char) : Bool :=
  match needle, hay with
  | [], _ => true
  | _ :: _, [] => false
  | a :: as1, b :: bs1 => a = b && leadsList as1 bs1

/-- needle occurs contiguously inside hay (substring containment). -/
def insideList (needle hay : List Char) : Bool :=
  match hay with
  | [] => needle.isEmpty
  | _ :: t => leadsList needle hay || insideList needle t

/-- Prisma contains with mode insensitive on a nullable column: a null
column never matches. -/
def optContainsCI (col : Option String) (q : String) : Bool :=
  match col with
  | none => false
  | some s => insideList ((jsToLower q).data) ((jsToLower s).data)

/-- Prisma contains (default sensitivity) on a nullable column. -/
def optContainsCS (col : Option String) (q : String) : Bool :=
  match col with
  | none => false
  | some s => insideList q.data s.data

/-- The OR filter of AdminService.searchUsers for a non-blank query. -/
def userMatches (q : String) (u : User) : Bool :=
  optContainsCI u.email q || optContainsCI (some u.name) q ||
  optContainsCI (some u.code) q || optContainsCI (some u.role) q ||
  optContainsCS u.phone q

/-- GET /admin/users: the controller passes q || '' to
AdminService.searchUsers, which trims it; a blank query returns the
most recent users (createdAt desc, take 50), a non-blank query returns
the filtered users (name asc, take 50).  No branch throws. -/
def searchUsers (s : Store) (q : String) : List User :=
  let query := jsTrim q
  if query = "" then
    (sortLe createdDescU s.users).take 50
  else
    (sortLe nameAscU (s.users.filter (userMatches query))).take 50

-- ---------------------------------------------------------------
-- AdminController: project-roles read and bulk assign
-- ---------------------------------------------------------------

/-- The map the controller accumulates: a JS object, i.e. an ordered
association list with unique keys. -/
def RoleMap : Type := List (String × Option String)

/-- The write loop of getProjectRoles over the fetched rows: rows with
a truthy role overwrite the object entry for that role, rows later in
the list winning. -/
def buildRoleMap (init : List (String × Option String)) (items : List Assignment) :
    List (String × Option String) :=
  items.foldl
    (fun m row => if row.role = "" then m else jsSet m row.role (some row.userId)) init

/-- GET /admin/projects/:id/roles: every catalog role initialized to
null, then each fetched row written into the object. -/
def getProjectRoles (s : Store) (projectId : String) :
    Except AdminError (List (String × Option String)) :=
  match svcListAssignments s projectId with
  | .error e => .error e
  | .ok items => .ok (buildRoleMap (ROLE_CATALOG.map (fun r => (r, none))) items)

/-- One storage mutation issued by a handler. -/
inductive Mutation where
  | created (a : Assignment)
  | deleted (id : Nat)
deriving DecidableEq, Repr

/-- Outcome of POST /admin/projects/:id/assign-roles: the store when
the handler returned or threw (steps already executed stay applied:
the source has no transaction), the mutations issued, and the error if
one was thrown. -/
structure SetStateResult where
  store : Store
  trace : List Mutation
  error : Option AdminError
deriving DecidableEq, Repr

/-- The desired-map normalization of setProjectRoles: one entry per
catalog role; a role absent from the body (hasOwnProperty false)
defaults to null; body keys outside the catalog are never read. -/
def desiredOf (body : List (String × Option String)) : List (String × Option String) :=
  ROLE_CATALOG.map (fun role => (role, ((jsGet body role).join)))

/-- desired[role] ?? null as evaluated in the passes: undefined (a role
outside the catalog) and an explicit null both give null. -/
def desiredVal (desired : List (String × Option String)) (role : String) : Option String :=
  (jsGet desired role).join

/-- Step 2 of setProjectRoles: walk the current-by-role map in
insertion order and delete the recorded row of every role whose
desired value is null.  A throw aborts the walk, keeping the deletes
already done. -/
def deletePass (desired : List (String × Option String)) :
    List (String × (Nat × String)) → Store → List Mutation →
    Store × List Mutation × Option AdminError
  | [], s, tr => (s, tr, none)
  | (role, cur) :: rest, s, tr =>
    if desiredVal desired role = none then
      match svcRemoveAssignment s cur.1 with
      | (s1, some e) => (s1, tr, some e)
      | (s1, none) => deletePass desired rest s1 (tr ++ [.deleted cur.1])
    else
      deletePass desired rest s tr

/-- Step 3 of setProjectRoles: walk the catalog; skip a role when both
current and next are null, or when both are truthy and equal; call
AdminService.assign when next is truthy.  The current-by-role map is
the one computed before step 2 (the source does not refresh it). -/
def upsertPass (projectId : String) (desired : List (String × Option String))
    (currentByRole : List (String × (Nat × String))) :
    List String → Store → List Mutation →
    Store × List Mutation × Option AdminError
  | [], s, tr => (s, tr, none)
  | role :: rest, s, tr =>
    let next := desiredVal desired role
    let curUserId : Option String :=
      match jsGet currentByRole role with
      | some cur => some cur.2
      | none => none
    if curUserId = none ∧ next = none then
      upsertPass projectId desired currentByRole rest s tr
    else if jsTruthy curUserId && jsTruthy next && decide (curUserId = next) then
      upsertPass projectId desired currentByRole rest s tr
    else if jsTruthy next then
      let r := svcAssign s ⟨projectId, next.getD "", role⟩
      match r.error with
      | some e => (r.store, tr, some e)
      | none =>
        upsertPass projectId desired currentByRole rest r.store
          (tr ++ (match r.created with | some a => [.created a] | none => []))
    else
      upsertPass projectId desired currentByRole rest s tr

/-- The body of setProjectRoles after the desired map has been built:
fetch current rows, index them by role (later rows of the newest-first
list overwriting earlier ones), run the delete pass then the upsert
pass. -/
def setStateGo (s : Store) (projectId : String)
    (desired : List (String × Option String)) : SetStateResult :=
  match svcListAssignments s projectId with
  | .error e => ⟨s, [], some e⟩
  | .ok currentItems =>
    let currentByRole :=
      currentItems.foldl
        (fun m row => if row.role = "" then m else jsSet m row.role (row.id, row.userId)) []
    match deletePass desired currentByRole s [] with
    | (s1, tr1, some e) => ⟨s1, tr1, some e⟩
    | (s1, tr1, none) =>
      match upsertPass projectId desired currentByRole ROLE_CATALOG s1 tr1 with
      | (s2, tr2, e) => ⟨s2, tr2, e⟩

/-- POST /admin/projects/:id/assign-roles.  The body is a well-formed
assignments object here, so the controller's typeof check passes. -/
def setProjectRoles (s : Store) (projectId : String)
    (body : List (String × Option String)) : SetStateResult :=
  setStateGo s projectId (desiredOf body)

-- ---------------------------------------------------------------
-- Operation sequences (for the uniqueness invariant)
-- ---------------------------------------------------------------

/-- One public membership operation. -/
inductive AdminOp where
  | opSetState (projectId : String) (body : List (String × Option String))
  | opAssignOne (projectId userId role : String)
  | opRemoveOne (id : Nat)
deriving Repr

/-- Apply one operation; errors leave whatever state the handler
reached (which for the atomic single operations is the pre-state). -/
def applyOp (s : Store) : AdminOp → Store
  | .opSetState pid body => (setProjectRoles s pid body).store
  | .opAssignOne pid uid role => (svcAssign s ⟨pid, uid, role⟩).store
  | .opRemoveOne id => (svcRemoveAssignment s id).1

/-- Run a sequence of operations. -/
def runOps (s : Store) (ops : List AdminOp) : Store :=
  ops.foldl applyOp s

/-- Number of assignment rows for one (projectId, role) slot. -/
def slotCount (s : Store) (projectId role : String) : Nat :=
  (s.assignments.filter (fun a => a.projectId = projectId ∧ a.role = role)).length

-- helper views of an Except-valued getProjectRoles result
def keysOfResult : Except AdminError (List (String × Option String)) → List String
  | .ok m => m.map Prod.fst
  | .error _ => []

def roleValOfResult : Except AdminError (List (String × Option String)) → String →
    Option (Option String)
  | .ok m, r => jsGet m r
  | .error _, _ => none

-- ---------------------------------------------------------------
-- Concrete fixtures used by the counterexample / failing-input
-- theorems below
-- ---------------------------------------------------------------

def aliceU : User := { userId := "u1", code := "U1", role := "Member", name := "Alice", createdAt := 1 }

def bobU : User := { userId := "u2", code := "U2", role := "Member", name := "Bob", createdAt := 2 }

/-- A project with users u1, u2 and exactly one PMC record, held by u1. -/
def storeReplace : Store :=
  { projects := ["p"], users := [aliceU, bobU]
  , assignments := [⟨1, "p", "u1", "PMC", 5⟩], nextId := 2, now := 10 }

/-- A project with users u1, u2 and an empty membership set. -/
def storeEmptyMembers : Store :=
  { projects := ["p"], users := [aliceU, bobU], nextId := 1, now := 1 }

/-- A project whose only user is u1; one PMC record held by u1. -/
def storeOnlyAlice : Store :=
  { projects := ["p"], users := [aliceU]
  , assignments := [⟨1, "p", "u1", "PMC", 5⟩], nextId := 2, now := 10 }

/-- Storage holding one record whose role is outside the catalog. -/
def storeUnknownRole : Store :=
  { projects := ["p"], users := []
  , assignments := [⟨1, "p", "u9", "NotARole", 3⟩], nextId := 2, now := 10 }

/-- Storage holding two records for the same (project, role) slot:
the record of u1 is older (createdAt 1) than the record of u2
(createdAt 2). -/
def storeDupSlot : Store :=
  { projects := ["p"], users := [aliceU, bobU]
  , assignments := [⟨1, "p", "u1", "PMC", 1⟩, ⟨2, "p", "u2", "PMC", 2⟩]
  , nextId := 3, now := 10 }

-- ---------------------------------------------------------------
-- Library lemmas: insertion sort
-- ---------------------------------------------------------------

theorem mem_insertLe {α : Type} (le : α → α → Bool) (a x : α) (l : List α) :
    x ∈ insertLe le a l ↔ x = a ∨ x ∈ l := by
  induction l with
  | nil => simp [insertLe]
  | cons b t ih =>
    simp only [insertLe]
    split
    · simp [List.mem_cons]
    · simp only [List.mem_cons, ih]
      tauto

theorem mem_sortLe {α : Type} (le : α → α → Bool) (x : α) (l : List α) :
    x ∈ sortLe le l ↔ x ∈ l := by
  induction l with
  | nil => simp [sortLe]
  | cons b t ih => simp [sortLe, mem_insertLe, ih]

theorem length_insertLe {α : Type} (le : α → α → Bool) (a : α) (l : List α) :
    (insertLe le a l).length = l.length + 1 := by
  induction l with
  | nil => simp [insertLe]
  | cons b t ih =>
    simp only [insertLe]
    split
    · simp
    · simp [ih]

theorem length_sortLe {α : Type} (le : α → α → Bool) (l : List α) :
    (sortLe le l).length = l.length := by
  induction l with
  | nil => rfl
  | cons b t ih => simp [sortLe, length_insertLe, ih]

theorem pairwise_insertLe {α : Type} (le : α → α → Bool)
    (htrans : ∀ a b c, le a b = true → le b c = true → le a c = true)
    (htot : ∀ a b, le a b = false → le b a = true)
    (a : α) (l : List α)
    (h : List.Pairwise (fun x y => le x y = true) l) :
    List.Pairwise (fun x y => le x y = true) (insertLe le a l) := by
  induction l with
  | nil => simp [insertLe]
  | cons b t ih =>
    obtain ⟨h1, h2⟩ := List.pairwise_cons.mp h
    simp only [insertLe]
    by_cases hab : le a b = true
    · rw [if_pos hab]
      refine List.pairwise_cons.mpr ⟨?_, h⟩
      intro x hx
      rcases List.mem_cons.mp hx with rfl | hx
      · exact hab
      · exact htrans a b x hab (h1 x hx)
    · rw [if_neg hab]
      refine List.pairwise_cons.mpr ⟨?_, ih h2⟩
      intro x hx
      rcases (mem_insertLe le a x t).mp hx with rfl | hx
      · exact htot x b (Bool.eq_false_iff.mpr hab)
      · exact h1 x hx

theorem pairwise_sortLe {α : Type} (le : α → α → Bool)
    (htrans : ∀ a b c, le a b = true → le b c = true → le a c = true)
    (htot : ∀ a b, le a b = false → le b a = true)
    (l : List α) :
    List.Pairwise (fun x y => le x y = true) (sortLe le l) := by
  induction l with
  | nil => simp [sortLe]
  | cons b t ih => exact pairwise_insertLe le htrans htot b (sortLe le t) ih

-- ---------------------------------------------------------------
-- Library lemmas: JS object / Map reads and writes
-- ---------------------------------------------------------------

theorem jsGet_cons_hit {α : Type} (kv : String × α) (t : List (String × α)) (k : String)
    (h : kv.1 = k) : jsGet (kv :: t) k = some kv.2 := by
  simp [jsGet, List.find?_cons_of_pos, h]

theorem jsGet_cons_miss {α : Type} (kv : String × α) (t : List (String × α)) (k : String)
    (h : ¬ kv.1 = k) : jsGet (kv :: t) k = jsGet t k := by
  simp only [jsGet]
  rw [List.find?_cons_of_neg _ (by simpa using h)]

theorem jsGet_mapUpdate_ne {α : Type} (k r : String) (v : α) (m : List (String × α))
    (hrk : ¬ r = k) :
    jsGet (m.map (fun kv => if kv.1 = k then (k, v) else kv)) r = jsGet m r := by
  induction m with
  | nil => rfl
  | cons kv t ih =>
    by_cases hk : kv.1 = k
    · simp only [List.map_cons, if_pos hk]
      rw [jsGet_cons_miss (k, v) _ r (by simpa using fun h => hrk h.symm)]
      rw [jsGet_cons_miss kv t r (by rw [hk]; exact fun h => hrk h.symm)]
      exact ih
    · simp only [List.map_cons, if_neg hk]
      by_cases hr : kv.1 = r
      · rw [jsGet_cons_hit kv _ r hr, jsGet_cons_hit kv t r hr]
      · rw [jsGet_cons_miss kv _ r hr, jsGet_cons_miss kv t r hr]
        exact ih

theorem jsGet_mapUpdate_eq {α : Type} (k : String) (v : α) (m : List (String × α))
    (h : m.any (fun kv => kv.1 = k) = true) :
    jsGet (m.map (fun kv => if kv.1 = k then (k, v) else kv)) k = some v := by
  induction m with
  | nil => simp at h
  | cons kv t ih =>
    by_cases hk : kv.1 = k
    · simp only [List.map_cons, if_pos hk]
      exact jsGet_cons_hit (k, v) _ k rfl
    · simp only [List.map_cons, if_neg hk]
      rw [jsGet_cons_miss kv _ k hk]
      refine ih ?_
      simpa [List.any_cons, hk] using h

theorem jsGet_append {α : Type} (l1 l2 : List (String × α)) (r : String) :
    jsGet (l1 ++ l2) r = (jsGet l1 r).or (jsGet l2 r) := by
  induction l1 with
  | nil => simp [jsGet]
  | cons kv t ih =>
    by_cases hk : kv.1 = r
    · rw [List.cons_append, jsGet_cons_hit kv _ r hk, jsGet_cons_hit kv t r hk,
        Option.or_some]
    · rw [List.cons_append, jsGet_cons_miss kv _ r hk, jsGet_cons_miss kv t r hk]
      exact ih

theorem jsGet_eq_none_of_not_any {α : Type} (m : List (String × α)) (k : String)
    (h : m.any (fun kv => kv.1 = k) = false) :
    jsGet m k = none := by
  induction m with
  | nil => rfl
  | cons kv t ih =>
    simp only [List.any_cons, Bool.or_eq_false_iff, decide_eq_false_iff_not] at h
    rw [jsGet_cons_miss kv t k h.1]
    exact ih (by simpa using h.2)

theorem jsGet_jsSet {α : Type} (m : List (String × α)) (k r : String) (v : α) :
    jsGet (jsSet m k v) r = if r = k then some v else jsGet m r := by
  unfold jsSet
  split
  · by_cases hrk : r = k
    · subst hrk
      rw [if_pos rfl]
      exact jsGet_mapUpdate_eq r v m (by assumption)
    · rw [if_neg hrk]
      exact jsGet_mapUpdate_ne k r v m hrk
  · rename_i hcond
    rw [jsGet_append]
    by_cases hrk : r = k
    · subst hrk
      have hna : m.any (fun kv => kv.1 = r) = false := by
        simp only [Bool.not_eq_true] at hcond
        exact hcond
      rw [jsGet_eq_none_of_not_any m r hna, if_pos rfl, Option.none_or]
      exact jsGet_cons_hit (r, v) [] r rfl
    · rw [if_neg hrk]
      rw [jsGet_cons_miss (k, v) [] r (fun h => hrk h.symm)]
      cases hm : jsGet m r with
      | some v0 => rfl
      | none => rfl

/-- The keys of a jsSet write: unchanged when the key was present,
appended otherwise. -/
theorem keys_jsSet {α : Type} (m : List (String × α)) (k : String) (v : α) :
    (jsSet m k v).map Prod.fst = m.map Prod.fst ∨
    (jsSet m k v).map Prod.fst = m.map Prod.fst ++ [k] := by
  unfold jsSet
  split
  · left
    rw [List.map_map]
    refine List.map_congr_left ?_
    intro kv _
    by_cases hk : kv.1 = k
    · simp [Function.comp, hk]
    · simp [Function.comp, hk]
  · right
    simp

-- ---------------------------------------------------------------
-- Lemmas about the read-side map of getProjectRoles
-- ---------------------------------------------------------------

theorem buildRoleMap_cons (init : List (String × Option String)) (a : Assignment)
    (items : List Assignment) :
    buildRoleMap init (a :: items)
      = buildRoleMap (if a.role = "" then init else jsSet init a.role (some a.userId)) items := by
  rfl

theorem keys_buildRoleMap_of_init :
    ∀ (items : List Assignment) (init : List (String × Option String)) (k : String),
    k ∈ init.map Prod.fst → k ∈ (buildRoleMap init items).map Prod.fst := by
  intro items
  induction items with
  | nil => intro init k h; exact h
  | cons a t ih =>
    intro init k h
    rw [buildRoleMap_cons]
    by_cases ha : a.role = ""
    · rw [if_pos ha]; exact ih init k h
    · rw [if_neg ha]
      refine ih _ k ?_
      rcases keys_jsSet init a.role (some a.userId) with he | he
      · rw [he]; exact h
      · rw [he]; exact List.mem_append_left _ h

theorem keys_buildRoleMap_from :
    ∀ (items : List Assignment) (init : List (String × Option String)) (k : String),
    k ∈ (buildRoleMap init items).map Prod.fst →
    k ∈ init.map Prod.fst ∨ ∃ a, a ∈ items ∧ a.role = k := by
  intro items
  induction items with
  | nil => intro init k h; exact Or.inl h
  | cons a t ih =>
    intro init k h
    rw [buildRoleMap_cons] at h
    by_cases ha : a.role = ""
    · rw [if_pos ha] at h
      rcases ih init k h with h1 | ⟨b, hb, hbk⟩
      · exact Or.inl h1
      · exact Or.inr ⟨b, List.mem_cons_of_mem a hb, hbk⟩
    · rw [if_neg ha] at h
      rcases ih _ k h with h1 | ⟨b, hb, hbk⟩
      · rcases keys_jsSet init a.role (some a.userId) with he | he
        · rw [he] at h1; exact Or.inl h1
        · rw [he] at h1
          rcases List.mem_append.mp h1 with h2 | h2
          · exact Or.inl h2
          · refine Or.inr ⟨a, List.mem_cons_self a t, ?_⟩
            have hk : k = a.role := by simpa using h2
            exact hk.symm
      · exact Or.inr ⟨b, List.mem_cons_of_mem a hb, hbk⟩

/-- The value held for role r after the write loop: the last row of
the list with that role wins; with no such row the initial value
stays.  This is the accumulator form. -/
def lastW (r : String) : List Assignment → Option (Option String) → Option (Option String)
  | [], acc => acc
  | a :: t, acc => lastW r t (if a.role = r then some (some a.userId) else acc)

theorem jsGet_buildRoleMap (r : String) (hr : r ≠ "") :
    ∀ (items : List Assignment) (init : List (String × Option String)),
    jsGet (buildRoleMap init items) r = lastW r items (jsGet init r) := by
  intro items
  induction items with
  | nil => intro init; rfl
  | cons a t ih =>
    intro init
    rw [buildRoleMap_cons]
    by_cases ha : a.role = ""
    · rw [if_pos ha, ih init]
      have hne : ¬ (a.role = r) := by
        rw [ha]
        exact fun h => hr h.symm
      simp [lastW, if_neg hne]
    · rw [if_neg ha, ih _]
      have : jsGet (jsSet init a.role (some a.userId)) r
          = if a.role = r then some (some a.userId) else jsGet init r := by
        rw [jsGet_jsSet]
        by_cases har : a.role = r
        · rw [if_pos har, if_pos (har.symm)]
        · rw [if_neg har, if_neg (fun h => har h.symm)]
      rw [this]
      rfl

theorem lastW_of_no_match (r : String) :
    ∀ (items : List Assignment) (acc : Option (Option String)),
    (∀ b ∈ items, b.role ≠ r) → lastW r items acc = acc := by
  intro items
  induction items with
  | nil => intro acc _; rfl
  | cons a t ih =>
    intro acc h
    have ha : a.role ≠ r := h a (List.mem_cons_self a t)
    simp only [lastW, if_neg ha]
    exact ih acc (fun b hb => h b (List.mem_cons_of_mem a hb))

theorem lastW_const (r : String) (u : String) :
    ∀ (items : List Assignment) ,
    (∀ b ∈ items, b.role = r → b.userId = u) →
    lastW r items (some (some u)) = some (some u) := by
  intro items
  induction items with
  | nil => intro _; rfl
  | cons a t ih =>
    intro h
    by_cases ha : a.role = r
    · simp only [lastW, if_pos ha]
      rw [h a (List.mem_cons_self a t) ha]
      exact ih (fun b hb hbr => h b (List.mem_cons_of_mem a hb) hbr)
    · simp only [lastW, if_neg ha]
      exact ih (fun b hb hbr => h b (List.mem_cons_of_mem a hb) hbr)

/-- In a list ordered by createdAt descending, the last write for role
r is the row with the uniquely smallest createdAt among the rows of
role r. -/
theorem lastW_unique_oldest (r : String) (a : Assignment) :
    ∀ (items : List Assignment) (acc : Option (Option String)),
    List.Pairwise (fun x y => y.createdAt ≤ x.createdAt) items →
    a ∈ items → a.role = r →
    (∀ b ∈ items, b.role = r → b ≠ a → a.createdAt < b.createdAt) →
    lastW r items acc = some (some a.userId) := by
  intro items
  induction items with
  | nil => intro acc _ hmem; exact absurd hmem (List.not_mem_nil a)
  | cons c t ih =>
    intro acc hp hmem har hmin
    obtain ⟨h1, h2⟩ := List.pairwise_cons.mp hp
    by_cases hat : a ∈ t
    · simp only [lastW]
      exact ih _ h2 hat har
        (fun b hb hbr hba => hmin b (List.mem_cons_of_mem c hb) hbr hba)
    · have hac : a = c := by
        rcases List.mem_cons.mp hmem with h | h
        · exact h
        · exact absurd h hat
      subst hac
      simp only [lastW, if_pos har]
      refine lastW_const r a.userId t ?_
      intro b hb hbr
      by_cases hba : b = a
      · rw [hba]
      · exact absurd (h1 b hb) (Nat.not_le.mpr (hmin b (List.mem_cons_of_mem a hb) hbr hba))

theorem pairwise_createdDesc (l : List Assignment) :
    List.Pairwise (fun x y => y.createdAt ≤ x.createdAt) (sortLe createdDescA l) := by
  have h := pairwise_sortLe createdDescA
    (fun a b c hab hbc => by
      simp only [createdDescA, decide_eq_true_eq] at *
      exact Nat.le_trans hbc hab)
    (fun a b hab => by
      simp only [createdDescA, decide_eq_true_eq] at *
      exact Nat.le_of_lt (Nat.lt_of_not_le (by simpa using hab)))
    l
  exact h.imp (fun hxy => by simpa [createdDescA] using hxy)

/-- Every catalog role is a non-blank string. -/
theorem catalog_roles_nonblank : ∀ r ∈ ROLE_CATALOG, r ≠ "" := by
  decide

theorem jsGet_constMap (v : Option String) :
    ∀ (l : List String) (r : String), r ∈ l →
    jsGet (l.map (fun x => (x, v))) r = some v := by
  intro l
  induction l with
  | nil => intro r h; exact absurd h (List.not_mem_nil r)
  | cons x t ih =>
    intro r h
    by_cases hx : x = r
    · subst hx
      exact jsGet_cons_hit (x, v) _ x rfl
    · rw [List.map_cons, jsGet_cons_miss (x, v) _ r hx]
      rcases List.mem_cons.mp h with h1 | h1
      · exact absurd h1.symm hx
      · exact ih r h1

-- ---------------------------------------------------------------
-- Lemmas about setProjectRoles (desired-map normalization and the
-- roles of the records it can create)
-- ---------------------------------------------------------------

theorem jsGet_filter_of_key {α : Type} (p : (String × α) → Bool) (k : String)
    (hk : ∀ kv : String × α, kv.1 = k → p kv = true) :
    ∀ l : List (String × α), jsGet (l.filter p) k = jsGet l k := by
  intro l
  induction l with
  | nil => rfl
  | cons kv t ih =>
    by_cases hkv : kv.1 = k
    · rw [List.filter_cons_of_pos (hk kv hkv)]
      rw [jsGet_cons_hit kv _ k hkv, jsGet_cons_hit kv t k hkv]
    · cases hp : p kv with
      | true =>
        rw [List.filter_cons_of_pos hp]
        rw [jsGet_cons_miss kv _ k hkv, jsGet_cons_miss kv t k hkv]
        exact ih
      | false =>
        rw [List.filter_cons_of_neg (by simp [hp])]
        rw [jsGet_cons_miss kv t k hkv]
        exact ih

/-- Restricting the body to catalog keys does not change the desired
map: only catalog keys are ever read from the body. -/
theorem desiredOf_filter_catalog (body : List (String × Option String)) :
    desiredOf (body.filter (fun kv => decide (kv.1 ∈ ROLE_CATALOG))) = desiredOf body := by
  unfold desiredOf
  refine List.map_congr_left ?_
  intro role hrole
  have h := jsGet_filter_of_key (fun kv => decide (kv.1 ∈ ROLE_CATALOG)) role
    (fun kv hkv => by simp [hkv, hrole]) body
  rw [h]

/-- Appending an explicit null entry never changes the desired map: a
missing key already defaults to null, and an existing entry shadows
the appended one. -/
theorem desiredOf_append_null (body : List (String × Option String)) (r : String) :
    desiredOf (body ++ [(r, none)]) = desiredOf body := by
  unfold desiredOf
  refine List.map_congr_left ?_
  intro role _
  rw [jsGet_append]
  cases hb : jsGet body role with
  | some v => rw [Option.or_some]
  | none =>
    rw [Option.none_or]
    by_cases hrr : r = role
    · subst hrr
      rw [jsGet_cons_hit (r, none) [] r rfl]
      rfl
    · rw [jsGet_cons_miss (r, none) [] role hrr]
      rfl

theorem svcRemoveAssignment_subset (s : Store) (id : Nat) (s1 : Store)
    (e : Option AdminError) (heq : svcRemoveAssignment s id = (s1, e)) :
    ∀ a ∈ s1.assignments, a ∈ s.assignments := by
  intro a h
  unfold svcRemoveAssignment at heq
  split at heq
  · cases heq
    exact List.mem_of_mem_filter h
  · cases heq
    exact h

theorem deletePass_subset (desired : List (String × Option String)) :
    ∀ (entries : List (String × (Nat × String))) (s : Store) (tr : List Mutation)
      (s1 : Store) (tr1 : List Mutation) (e1 : Option AdminError),
    deletePass desired entries s tr = (s1, tr1, e1) →
    ∀ a ∈ s1.assignments, a ∈ s.assignments := by
  intro entries
  induction entries with
  | nil =>
    intro s tr s1 tr1 e1 heq a h
    cases heq
    exact h
  | cons e rest ih =>
    intro s tr s1 tr1 e1 heq a h
    obtain ⟨role, cur⟩ := e
    simp only [deletePass] at heq
    split at heq
    · split at heq
      · rename_i st1 er1 hrm
        cases heq
        exact svcRemoveAssignment_subset s cur.1 s1 (some er1) hrm a h
      · rename_i st1 hrm
        have h2 := ih st1 _ s1 tr1 e1 heq a h
        exact svcRemoveAssignment_subset s cur.1 st1 none hrm a h2
    · exact ih s tr s1 tr1 e1 heq a h

/-- Any row present after an assign call was either already present or
is the created row, whose role is the trimmed dto role. -/
theorem svcAssign_mem (s : Store) (dto : AssignDto) (a : Assignment)
    (h : a ∈ (svcAssign s dto).store.assignments) :
    a ∈ s.assignments ∨ a.role = jsTrim dto.role := by
  simp only [svcAssign] at h
  split_ifs at h
  all_goals
    first
    | exact Or.inl h
    | (rcases List.mem_append.mp h with h1 | h1
       · exact Or.inl h1
       · right
         have he : a = ⟨s.nextId, jsTrim dto.projectId, jsTrim dto.userId,
             jsTrim dto.role, s.now⟩ := by
           simpa using h1
         rw [he])

theorem upsertPass_mem (pid : String) (desired : List (String × Option String))
    (cbr : List (String × (Nat × String))) :
    ∀ (roles : List String) (s : Store) (tr : List Mutation)
      (s1 : Store) (tr1 : List Mutation) (e1 : Option AdminError),
    upsertPass pid desired cbr roles s tr = (s1, tr1, e1) →
    ∀ a ∈ s1.assignments,
    a ∈ s.assignments ∨ ∃ role, role ∈ roles ∧ a.role = jsTrim role := by
  intro roles
  induction roles with
  | nil =>
    intro s tr s1 tr1 e1 heq a h
    cases heq
    exact Or.inl h
  | cons role rest ih =>
    intro s tr s1 tr1 e1 heq a h
    simp only [upsertPass] at heq
    split at heq
    · rcases ih s tr s1 tr1 e1 heq a h with h1 | ⟨r2, hr2, har⟩
      · exact Or.inl h1
      · exact Or.inr ⟨r2, List.mem_cons_of_mem role hr2, har⟩
    · split at heq
      · rcases ih s tr s1 tr1 e1 heq a h with h1 | ⟨r2, hr2, har⟩
        · exact Or.inl h1
        · exact Or.inr ⟨r2, List.mem_cons_of_mem role hr2, har⟩
      · split at heq
        · split at heq
          · cases heq
            rcases svcAssign_mem s _ a h with h1 | h1
            · exact Or.inl h1
            · exact Or.inr ⟨role, List.mem_cons_self role rest, h1⟩
          · rcases ih _ _ s1 tr1 e1 heq a h with h1 | ⟨r2, hr2, har⟩
            · rcases svcAssign_mem s _ a h1 with h2 | h2
              · exact Or.inl h2
              · exact Or.inr ⟨role, List.mem_cons_self role rest, h2⟩
            · exact Or.inr ⟨r2, List.mem_cons_of_mem role hr2, har⟩
        · rcases ih s tr s1 tr1 e1 heq a h with h1 | ⟨r2, hr2, har⟩
          · exact Or.inl h1
          · exact Or.inr ⟨r2, List.mem_cons_of_mem role hr2, har⟩

/-- Every catalog role is already trimmed. -/
theorem catalog_trim_fixed : ∀ r ∈ ROLE_CATALOG, jsTrim r = r := by
  decide

/-- setProjectRoles never creates a record whose role is outside the
catalog: the upsert loop ranges over the catalog only and the delete
loop only removes rows. -/
theorem setState_preserves_no_role (s : Store) (pid : String)
    (body : List (String × Option String)) (k : String)
    (hk : k ∉ ROLE_CATALOG) (hclean : ∀ a ∈ s.assignments, a.role ≠ k) :
    ∀ a ∈ (setProjectRoles s pid body).store.assignments, a.role ≠ k := by
  intro a ha hak
  simp only [setProjectRoles, setStateGo] at ha
  split at ha
  · exact hclean a ha hak
  · split at ha
    · rename_i s1 tr1 e1 heq
      exact hclean a (deletePass_subset (desiredOf body) _ s [] s1 tr1 (some e1) heq a ha) hak
    · rename_i s1 tr1 heq
      have hs1 : ∀ b ∈ s1.assignments, b.role ≠ k := by
        intro b hb hbk
        exact hclean b (deletePass_subset (desiredOf body) _ s [] s1 tr1 none heq b hb) hbk
      rcases upsertPass_mem pid (desiredOf body) _ ROLE_CATALOG s1 tr1 _ _ _ rfl a ha
        with h1 | ⟨r2, hr2, har⟩
      · exact hs1 a h1 hak
      · rw [catalog_trim_fixed r2 hr2] at har
        rw [hak] at har
        exact hk (har ▸ hr2)

/-- Key membership in a getProjectRoles result, for any store: a key
is either a catalog role or the role of some stored record. -/
theorem keys_getProjectRoles_from (s : Store) (pid k : String)
    (h : k ∈ keysOfResult (getProjectRoles s pid)) :
    k ∈ ROLE_CATALOG ∨ ∃ a ∈ s.assignments, a.role = k := by
  by_cases hpid : jsTrim pid = ""
  · have : getProjectRoles s pid = .error (.badRequest "projectId required") := by
      simp only [getProjectRoles, svcListAssignments]
      rw [if_pos hpid]
    rw [this] at h
    exact absurd h (List.not_mem_nil k)
  · have hok : getProjectRoles s pid
        = .ok (buildRoleMap (ROLE_CATALOG.map (fun r => (r, none)))
            (sortLe createdDescA
              (s.assignments.filter (fun a => a.projectId = jsTrim pid)))) := by
      simp only [getProjectRoles, svcListAssignments]
      rw [if_neg hpid]
    rw [hok] at h
    rcases keys_buildRoleMap_from _ _ k h with h1 | ⟨a, ha, hrole⟩
    · left
      have hkeys : (ROLE_CATALOG.map (fun r => (r, (none : Option String)))).map Prod.fst
          = ROLE_CATALOG := by
        rw [List.map_map]
        exact List.map_id ROLE_CATALOG ▸ List.map_congr_left (fun a _ => rfl)
      rw [hkeys] at h1
      exact h1
    · right
      have ha2 := (mem_sortLe createdDescA a _).mp ha
      exact ⟨a, (List.mem_filter.mp ha2).1, hrole⟩

-- ---------------------------------------------------------------
-- Claim theorems
-- ---------------------------------------------------------------

/-- C1: the claim says that, starting from exactly one PMC record held
by u1, setState(p, (PMC : u2)) deletes the stale record before
creating the new one, leaving exactly one PMC record, held by u2, and
none for u1.  Evaluating the code at that input shows the opposite:
the call returns without error but performs no delete, so the slot
ends with two records and the record of u1 is still present. -/
theorem c1_replace_retains_stale_record :
    slotCount storeReplace "p" "PMC" = 1 ∧
    (storeReplace.assignments.all (fun a => a.role = "PMC" → a.userId = "u1")) = true ∧
    (setProjectRoles storeReplace "p" [("PMC", some "u2")]).error = none ∧
    slotCount (setProjectRoles storeReplace "p" [("PMC", some "u2")]).store "p" "PMC" = 2 ∧
    ((setProjectRoles storeReplace "p" [("PMC", some "u2")]).store.assignments.any
      (fun a => a.role = "PMC" ∧ a.userId = "u1")) = true := by
  decide

/-- C2: the claim says that after any finite sequence of setState /
assignOne / removeOne from an empty membership set, at most one
Assignment record exists per (projectId, role).  Evaluating the code:
two assignOne calls for the same slot, both succeeding, leave two
records for (p, PMC) — assign deletes nothing before creating. -/
theorem c2_assign_twice_breaks_uniqueness :
    storeEmptyMembers.assignments = [] ∧
    slotCount
      (runOps storeEmptyMembers
        [.opAssignOne "p" "u1" "PMC", .opAssignOne "p" "u2" "PMC"]) "p" "PMC" = 2 := by
  decide

/-- C3: the claim says setState is atomic: on any failure the
persisted state is exactly what it was before the call.  Evaluating
the code at a snapshot that unassigns PMC and assigns a nonexistent
user to Architect: the handler throws (Invalid userId) after the PMC
delete already ran, so the call fails yet the persisted state differs
from the pre-call state (the PMC record is gone). -/
theorem c3_failed_setState_is_partially_applied :
    (setProjectRoles storeOnlyAlice "p"
        [("PMC", none), ("Architect", some "ghost")]).error
      = some (.badRequest "Invalid userId") ∧
    (setProjectRoles storeOnlyAlice "p"
        [("PMC", none), ("Architect", some "ghost")]).store.assignments = [] ∧
    storeOnlyAlice.assignments ≠ [] := by
  decide

/-- C5: the claim says setState(p, D) twice leaves identical persisted
state and the second call issues zero mutations.  Evaluating the code
with D = (PMC : u2) from one PMC record held by u1: the first call
succeeds (leaving a duplicate), and the second call again issues a
create mutation and changes the persisted assignment rows. -/
theorem c5_second_setState_mutates_again :
    (setProjectRoles storeReplace "p" [("PMC", some "u2")]).error = none ∧
    (setProjectRoles (setProjectRoles storeReplace "p" [("PMC", some "u2")]).store
        "p" [("PMC", some "u2")]).trace ≠ [] ∧
    (setProjectRoles (setProjectRoles storeReplace "p" [("PMC", some "u2")]).store
        "p" [("PMC", some "u2")]).store.assignments
      ≠ (setProjectRoles storeReplace "p" [("PMC", some "u2")]).store.assignments := by
  decide

/-- C4 counterexample: the claim says the key set of getState equals
the RoleCatalog for every storage contents.  With a stored record
whose role is NotARole, the result of getProjectRoles carries the key
NotARole, which is outside the catalog. -/
theorem c4_unknown_role_key_leaks_into_getState :
    "NotARole" ∈ keysOfResult (getProjectRoles storeUnknownRole "p") ∧
    "NotARole" ∉ ROLE_CATALOG := by
  decide

/-- C6 counterexample: the claim says that with duplicate records for
a role, getState reports the most-recently-created one.  With two PMC
records — u1 created at time 1, u2 created at time 2 — the code
reports u1, the least-recently-created: the newest-first list is
written into the object in order, so the oldest row wins. -/
theorem c6_getState_reports_oldest_duplicate :
    ((storeDupSlot.assignments.filter
        (fun a => a.projectId = "p" ∧ a.role = "PMC")).all
      (fun a => a.userId = "u2" → a.createdAt = 2)) = true ∧
    ((storeDupSlot.assignments.filter
        (fun a => a.projectId = "p" ∧ a.role = "PMC")).all
      (fun a => a.userId = "u1" → a.createdAt = 1)) = true ∧
    roleValOfResult (getProjectRoles storeDupSlot "p") "PMC" = some (some "u1") := by
  decide

/-- C4 amended: for every projectId (non-blank, else the fetch throws)
and every storage contents, the key set of the mapping returned by
getState contains every catalog role; a catalog role with no stored
record resolves to null; keys outside the catalog can appear, and do
so exactly when storage holds a record for this project with such a
role. -/
theorem c4_amended_keys_cover_catalog (s : Store) (pid : String)
    (hpid : jsTrim pid ≠ "") :
    (∀ r ∈ ROLE_CATALOG, r ∈ keysOfResult (getProjectRoles s pid)) ∧
    (∀ k ∈ keysOfResult (getProjectRoles s pid),
        k ∈ ROLE_CATALOG ∨ ∃ a ∈ s.assignments, a.projectId = jsTrim pid ∧ a.role = k) ∧
    (∀ r ∈ ROLE_CATALOG,
        (∀ a ∈ s.assignments, a.projectId = jsTrim pid → a.role ≠ r) →
        roleValOfResult (getProjectRoles s pid) r = some none) := by
  have hok : getProjectRoles s pid
      = .ok (buildRoleMap (ROLE_CATALOG.map (fun r => (r, none)))
          (sortLe createdDescA
            (s.assignments.filter (fun a => a.projectId = jsTrim pid)))) := by
    simp only [getProjectRoles, svcListAssignments]
    rw [if_neg hpid]
  have hkeys : (ROLE_CATALOG.map (fun r => (r, (none : Option String)))).map Prod.fst
      = ROLE_CATALOG := by
    rw [List.map_map]
    exact List.map_id ROLE_CATALOG ▸ List.map_congr_left (fun a _ => rfl)
  have hmemitems : ∀ b : Assignment,
      b ∈ sortLe createdDescA
          (s.assignments.filter (fun a => a.projectId = jsTrim pid)) →
      b ∈ s.assignments ∧ b.projectId = jsTrim pid := by
    intro b hb
    have hb2 := (mem_sortLe createdDescA b _).mp hb
    have hb3 := List.mem_filter.mp hb2
    exact ⟨hb3.1, by simpa using hb3.2⟩
  refine ⟨?_, ?_, ?_⟩
  · intro r hr
    rw [hok]
    show r ∈ (buildRoleMap _ _).map Prod.fst
    refine keys_buildRoleMap_of_init _ _ r ?_
    rw [hkeys]
    exact hr
  · intro k hk
    rw [hok] at hk
    rcases keys_buildRoleMap_from _ _ k hk with h1 | ⟨a, ha, hrole⟩
    · rw [hkeys] at h1
      exact Or.inl h1
    · obtain ⟨ha1, ha2⟩ := hmemitems a ha
      exact Or.inr ⟨a, ha1, ha2, hrole⟩
  · intro r hr hnone
    rw [hok]
    show jsGet _ r = some none
    rw [jsGet_buildRoleMap r (catalog_roles_nonblank r hr)]
    rw [lastW_of_no_match r _ _ ?hnm]
    · exact jsGet_constMap none ROLE_CATALOG r hr
    case hnm =>
      intro b hb
      obtain ⟨hb1, hb2⟩ := hmemitems b hb
      exact hnone b hb1 hb2

/-- C4 amended, witness at a concrete input. -/
theorem c4_amended_witness :
    "PMC" ∈ keysOfResult (getProjectRoles storeUnknownRole "p") :=
  (c4_amended_keys_cover_catalog storeUnknownRole "p" (by decide)).1 "PMC" (by decide)

/-- C6 amended: with more than one record for the same role on a
project, getState reports the userId of the least-recently-created
(oldest) record for that role — the newest-first fetch is folded into
the object with later (older) rows overwriting earlier ones — and the
read performs no storage mutation (it only fetches and folds). -/
theorem c6_amended_oldest_record_wins (s : Store) (pid r : String) (a : Assignment)
    (hpid : jsTrim pid ≠ "") (hr : r ≠ "")
    (ha : a ∈ s.assignments) (hap : a.projectId = jsTrim pid) (har : a.role = r)
    (hmin : ∀ b ∈ s.assignments,
        b.projectId = jsTrim pid → b.role = r → b ≠ a → a.createdAt < b.createdAt) :
    roleValOfResult (getProjectRoles s pid) r = some (some a.userId) := by
  have hok : getProjectRoles s pid
      = .ok (buildRoleMap (ROLE_CATALOG.map (fun r => (r, none)))
          (sortLe createdDescA
            (s.assignments.filter (fun a => a.projectId = jsTrim pid)))) := by
    simp only [getProjectRoles, svcListAssignments]
    rw [if_neg hpid]
  rw [hok]
  show jsGet _ r = some (some a.userId)
  rw [jsGet_buildRoleMap r hr]
  refine lastW_unique_oldest r a _ _ (pairwise_createdDesc _) ?_ har ?_
  · rw [mem_sortLe]
    exact List.mem_filter.mpr ⟨ha, by simpa using hap⟩
  · intro b hb hbr hba
    have hb2 := (mem_sortLe createdDescA b _).mp hb
    have hb3 := List.mem_filter.mp hb2
    exact hmin b hb3.1 (by simpa using hb3.2) hbr hba

/-- C6 amended, witness at a concrete input: two PMC records, the
older held by u1; getState reports u1. -/
theorem c6_amended_witness :
    roleValOfResult (getProjectRoles storeDupSlot "p") "PMC" = some (some "u1") :=
  c6_amended_oldest_record_wins storeDupSlot "p" "PMC" ⟨1, "p", "u1", "PMC", 1⟩
    (by decide) (by decide) (by decide) (by decide) (by decide) (by decide)

/-- C7: snapshot keys outside the RoleCatalog are ignored by setState
— the call behaves exactly (same resulting store, same mutations,
same error, in particular no new error) as the call with the body
restricted to catalog keys; a catalog role missing from the body is
treated as an explicit null (appending such a null entry changes
nothing); and a role absent from storage and outside the catalog is
still absent afterwards, hence never appears in any subsequent
getState output. -/
theorem c7_unknown_keys_ignored_missing_null (s : Store) (pid : String)
    (body : List (String × Option String)) (r k : String)
    (hk : k ∉ ROLE_CATALOG) (hclean : ∀ a ∈ s.assignments, a.role ≠ k) :
    setProjectRoles s pid body
      = setProjectRoles s pid (body.filter (fun kv => decide (kv.1 ∈ ROLE_CATALOG))) ∧
    setProjectRoles s pid body = setProjectRoles s pid (body ++ [(r, none)]) ∧
    (∀ a ∈ (setProjectRoles s pid body).store.assignments, a.role ≠ k) ∧
    (∀ pid2 : String,
      k ∉ keysOfResult (getProjectRoles (setProjectRoles s pid body).store pid2)) := by
  refine ⟨?_, ?_, ?_, ?_⟩
  · show setStateGo s pid (desiredOf body) = setStateGo s pid (desiredOf _)
    rw [desiredOf_filter_catalog]
  · show setStateGo s pid (desiredOf body) = setStateGo s pid (desiredOf _)
    rw [desiredOf_append_null]
  · exact setState_preserves_no_role s pid body k hk hclean
  · intro pid2 hmem
    rcases keys_getProjectRoles_from _ pid2 k hmem with h1 | ⟨a, ha, hrole⟩
    · exact hk h1
    · exact setState_preserves_no_role s pid body k hk hclean a ha hrole

/-- C7 witness at a concrete input: a body consisting solely of an
unknown role behaves as the empty body, and the unknown role never
shows up. -/
theorem c7_witness :
    (setProjectRoles storeReplace "p" [("NotARole", some "u9")]
      = setProjectRoles storeReplace "p"
          ([("NotARole", some "u9")].filter (fun kv => decide (kv.1 ∈ ROLE_CATALOG)))) ∧
    (setProjectRoles storeReplace "p" [("NotARole", some "u9")]
      = setProjectRoles storeReplace "p" ([("NotARole", some "u9")] ++ [("PMC", none)])) ∧
    (∀ a ∈ (setProjectRoles storeReplace "p" [("NotARole", some "u9")]).store.assignments,
      a.role ≠ "NotARole") ∧
    (∀ pid2 : String,
      "NotARole" ∉ keysOfResult
        (getProjectRoles (setProjectRoles storeReplace "p"
          [("NotARole", some "u9")]).store pid2)) :=
  c7_unknown_keys_ignored_missing_null storeReplace "p" [("NotARole", some "u9")]
    "PMC" "NotARole" (by decide) (by decide)

/-- C8 counterexample: the claim says assignOne fails with a
ValidationError when the role is outside the catalog.  With valid
project and user ids and the role NotARole, the code succeeds and
creates the record. -/
theorem c8_assign_accepts_role_outside_catalog :
    "NotARole" ∉ ROLE_CATALOG ∧
    (svcAssign storeEmptyMembers ⟨"p", "u1", "NotARole"⟩).error = none ∧
    (svcAssign storeEmptyMembers ⟨"p", "u1", "NotARole"⟩).created
      = some ⟨1, "p", "u1", "NotARole", 1⟩ := by
  decide

/-- C8 amended: assignOne fails with the validation error exactly when
projectId, userId, or role trims to blank — catalog membership of the
role is NOT checked; with non-blank fields it fails with the
foreign-key errors Invalid projectId / Invalid userId when the ids do
not resolve; and every failing call leaves the persisted storage
unchanged and creates nothing. -/
theorem c8_amended_assign_checks (s : Store) (dto : AssignDto) :
    ((jsTrim dto.projectId = "" ∨ jsTrim dto.userId = "" ∨ jsTrim dto.role = "") →
      svcAssign s dto = ⟨s, none, some (.badRequest "projectId, userId, role required")⟩) ∧
    ((¬ (jsTrim dto.projectId = "" ∨ jsTrim dto.userId = "" ∨ jsTrim dto.role = "")) →
      jsTrim dto.projectId ∉ s.projects →
      svcAssign s dto = ⟨s, none, some (.badRequest "Invalid projectId")⟩) ∧
    ((¬ (jsTrim dto.projectId = "" ∨ jsTrim dto.userId = "" ∨ jsTrim dto.role = "")) →
      jsTrim dto.projectId ∈ s.projects →
      (¬ ∃ u ∈ s.users, u.userId = jsTrim dto.userId) →
      svcAssign s dto = ⟨s, none, some (.badRequest "Invalid userId")⟩) ∧
    (∀ e, (svcAssign s dto).error = some e →
      (svcAssign s dto).store = s ∧ (svcAssign s dto).created = none) := by
  refine ⟨?_, ?_, ?_, ?_⟩
  · intro h
    simp only [svcAssign]
    rw [if_pos h]
  · intro h hp
    simp only [svcAssign]
    rw [if_neg h, if_pos hp]
  · intro h hp hu
    simp only [svcAssign]
    rw [if_neg h, if_neg (by simpa using hp)]
    rw [if_pos ?hc]
    case hc =>
      simp only [List.any_eq_true, decide_eq_true_eq]
      intro hex
      exact hu (by simpa using hex)
  · intro e he
    simp only [svcAssign] at he ⊢
    split_ifs at he ⊢ with h1 h2 h3
    · exact ⟨rfl, rfl⟩
    · exact ⟨rfl, rfl⟩
    · exact ⟨rfl, rfl⟩

/-- C8 amended, witness: a blank projectId is rejected with the
validation error and the store is untouched. -/
theorem c8_amended_witness :
    svcAssign storeEmptyMembers ⟨"", "u1", "PMC"⟩
      = ⟨storeEmptyMembers, none, some (.badRequest "projectId, userId, role required")⟩ :=
  (c8_amended_assign_checks storeEmptyMembers ⟨"", "u1", "PMC"⟩).1 (Or.inl (by decide))

/-- C9 counterexample: the claim says a request with at least one
non-blank contact field passes the contact check.  A request whose
phone is the non-blank string abc (and whose email is blank) still
fails it: phone normalization strips non-digits, leaving null. -/
theorem c9_nonblank_digitfree_phone_still_rejected :
    jsTrim "abc" ≠ "" ∧
    (createUser {} { code := "C1", role := "Member", name := "N"
                   , email := some "", phone := some "abc" }).error
      = some (.badRequest "Either email or phone is required") ∧
    (createUser {} { code := "C1", role := "Member", name := "N"
                   , email := some "", phone := some "abc" }).store = {} := by
  decide

/-- C9 amended: with code, role and name present, user creation fails
with the contact validation error, creating no record, exactly when
both contact fields normalize to null — where phone normalization
strips non-digits, so a non-blank but digit-free phone counts as
null; a request whose email is non-blank, or whose phone contains at
least one digit, passes this check (it can still fail the later
uniqueness probes, but never with the contact error). -/
theorem c9_amended_contact_check (s : Store) (dto : CreateUserDto)
    (hcode : jsTrim dto.code ≠ "") (hrole : jsTrim dto.role ≠ "")
    (hname : jsTrim dto.name ≠ "") :
    ((normEmail dto.email = none ∧ normPhone dto.phone = none) →
      createUser s dto
        = ⟨s, none, some (.badRequest "Either email or phone is required")⟩) ∧
    ((¬ (normEmail dto.email = none ∧ normPhone dto.phone = none)) →
      (createUser s dto).error
        ≠ some (.badRequest "Either email or phone is required")) := by
  have hc0 : ¬ dto.code = "" := by
    intro h
    exact hcode (by rw [h]; rfl)
  have hr0 : ¬ dto.role = "" := by
    intro h
    exact hrole (by rw [h]; rfl)
  have hn0 : ¬ dto.name = "" := by
    intro h
    exact hname (by rw [h]; rfl)
  have hcu : ¬ jsToUpper (jsTrim dto.code) = "" := by
    intro h
    refine hcode ?_
    have h2 := congrArg String.data h
    simp only [jsToUpper] at h2
    rcases he : (jsTrim dto.code).data with _ | ⟨c, t⟩
    · have : jsTrim dto.code = String.mk [] := by
        cases hq : jsTrim dto.code
        simp_all
      exact this
    · rw [he] at h2
      simp at h2
  have hctrl : createUser s dto = svcCreateUser s dto := by
    simp only [createUser]
    rw [if_neg (by tauto)]
  rw [hctrl]
  constructor
  · intro hboth
    simp only [svcCreateUser]
    rw [if_neg (by tauto), if_pos hboth]
  · intro hnotboth
    simp only [svcCreateUser]
    rw [if_neg (by tauto), if_neg hnotboth]
    split_ifs with h1 h2 h3 h4
    · intro hx
      injection hx with hy
      injection hy with hz
      have hd := congrArg String.data hz
      simp only [String.data_append, List.cons_append] at hd
      simp at hd
    · intro hx
      injection hx with hy
      injection hy with hz
      have hd := congrArg String.data hz
      simp only [String.data_append, List.cons_append] at hd
      simp at hd
    · intro hx
      injection hx with hy
      injection hy with hz
      have hd := congrArg String.data hz
      simp only [String.data_append, List.cons_append] at hd
      simp at hd
    · intro hx
      simp at hx
    · intro hx
      simp at hx

/-- sortLe with createdDescU yields a createdAt-descending list. -/
theorem pairwise_createdDescU (l : List User) :
    List.Pairwise (fun a b => b.createdAt ≤ a.createdAt) (sortLe createdDescU l) := by
  have h := pairwise_sortLe createdDescU
    (fun a b c hab hbc => by
      simp only [createdDescU, decide_eq_true_eq] at *
      exact Nat.le_trans hbc hab)
    (fun a b hab => by
      simp only [createdDescU, decide_eq_true_eq] at *
      exact Nat.le_of_lt (Nat.lt_of_not_le (by simpa using hab)))
    l
  exact h.imp (fun hxy => by simpa [createdDescU] using hxy)

/-- sortLe with nameAscU yields a name-ascending list. -/
theorem pairwise_nameAscU (l : List User) :
    List.Pairwise (fun a b => a.name ≤ b.name) (sortLe nameAscU l) := by
  have h := pairwise_sortLe nameAscU
    (fun a b c hab hbc => by
      simp only [nameAscU, decide_eq_true_eq] at *
      exact le_trans hab hbc)
    (fun a b hab => by
      simp only [nameAscU, decide_eq_true_eq] at *
      exact le_of_not_le (by simpa using hab))
    l
  exact h.imp (fun hxy => by simpa [nameAscU] using hxy)

/-- C10: user search with a blank (empty or whitespace-only) query
does not fail: it returns the stored users ordered by createdAt
descending, cut to at most 50 (exactly min 50 (number of users)); a
non-blank query instead returns at most 50 users, each stored and
matching the OR filter over email, name, code, role and phone,
ordered by name ascending. -/
theorem c10_search_blank_recent_query_filtered (s : Store) (q : String) :
    (jsTrim q = "" →
      (searchUsers s q).length = min 50 s.users.length ∧
      (∀ u ∈ searchUsers s q, u ∈ s.users) ∧
      List.Pairwise (fun a b => b.createdAt ≤ a.createdAt) (searchUsers s q)) ∧
    (jsTrim q ≠ "" →
      (searchUsers s q).length ≤ 50 ∧
      (∀ u ∈ searchUsers s q, u ∈ s.users ∧ userMatches (jsTrim q) u = true) ∧
      List.Pairwise (fun a b => a.name ≤ b.name) (searchUsers s q)) := by
  constructor
  · intro hq
    have hs : searchUsers s q = (sortLe createdDescU s.users).take 50 := by
      simp only [searchUsers]
      rw [if_pos hq]
    refine ⟨?_, ?_, ?_⟩
    · rw [hs, List.length_take, length_sortLe]
    · intro u hu
      rw [hs] at hu
      exact (mem_sortLe createdDescU u s.users).mp (List.mem_of_mem_take hu)
    · rw [hs]
      exact (pairwise_createdDescU s.users).sublist (List.take_sublist 50 _)
  · intro hq
    have hs : searchUsers s q
        = (sortLe nameAscU (s.users.filter (userMatches (jsTrim q)))).take 50 := by
      simp only [searchUsers]
      rw [if_neg hq]
    refine ⟨?_, ?_, ?_⟩
    · rw [hs, List.length_take, length_sortLe]
      exact Nat.min_le_left _ _
    · intro u hu
      rw [hs] at hu
      have h1 := (mem_sortLe nameAscU u _).mp (List.mem_of_mem_take hu)
      have h2 := List.mem_filter.mp h1
      exact ⟨h2.1, h2.2⟩
    · rw [hs]
      exact (pairwise_nameAscU _).sublist (List.take_sublist 50 _)

/-- C10 witness: at a concrete two-user store, the blank-query branch
returns both users, newest first. -/
theorem c10_witness :
    (searchUsers { users := [aliceU, bobU] } " ").length
        = min 50 ({ users := [aliceU, bobU] } : Store).users.length ∧
    (∀ u ∈ searchUsers { users := [aliceU, bobU] } " ",
        u ∈ ({ users := [aliceU, bobU] } : Store).users) ∧
    List.Pairwise (fun a b => b.createdAt ≤ a.createdAt)
      (searchUsers { users := [aliceU, bobU] } " ") :=
  (c10_search_blank_recent_query_filtered { users := [aliceU, bobU] } " ").1 (by decide)

/-- C9 amended, witness: both contacts blank is rejected; a dotted
email passes the contact check (the call succeeds here). -/
theorem c9_amended_witness :
    createUser {} { code := "C2", role := "Member", name := "M" }
      = ⟨{}, none, some (.badRequest "Either email or phone is required")⟩ :=
  (c9_amended_contact_check {} { code := "C2", role := "Member", name := "M" }
    (by decide) (by decide) (by decide)).1 (by decide)

end PMS
